import Mathlib

/-!
Shallow embedding of the arcade-shooter simulation in `src/main.rs`
(macroquad game, one round loop). Game-logic arithmetic (positions, timers,
speeds) is carried out on `ℚ`, standing in for the source's `f32` values;
every value that appears in play is small and exactly representable, so the
embedded arithmetic mirrors the source computations step for step. The
environment primitives (frame time, key state, the random draw for a spawn,
screen dimensions) are parameters of each frame step.
-/

namespace SpaceShoot

/-- Two-dimensional vector, standing in for macroquad's `Vec2`. -/
structure Vec2 where
  x : ℚ
  y : ℚ
  deriving Repr, DecidableEq

/-- Axis-aligned rectangle, standing in for macroquad's `Rect`
(`x`, `y` is the top-left corner; `w`, `h` the extents). -/
structure Rect where
  x : ℚ
  y : ℚ
  w : ℚ
  h : ℚ
  deriving Repr, DecidableEq

def Rect.new (x y w h : ℚ) : Rect := ⟨x, y, w, h⟩

def Rect.left (r : Rect) : ℚ := r.x

def Rect.right (r : Rect) : ℚ := r.x + r.w

def Rect.top (r : Rect) : ℚ := r.y

def Rect.bottom (r : Rect) : ℚ := r.y + r.h

/-- macroquad's `Rect::overlaps`: the conjunction
`self.left() <= other.right() && self.right() >= other.left() &&
self.top() <= other.bottom() && self.bottom() >= other.top()`
(edge contact counts as overlap). -/
def Rect.overlaps (a b : Rect) : Bool :=
  decide (a.left ≤ b.right) && decide (b.left ≤ a.right) &&
  decide (a.top ≤ b.bottom) && decide (b.top ≤ a.bottom)

/-- Mirror of `struct Player { pos: Vec2, size: Vec2 }`. -/
structure Player where
  pos : Vec2
  size : Vec2
  deriving Repr, DecidableEq

/-- Mirror of `struct Bullet { pos: Vec2 }`. -/
structure Bullet where
  pos : Vec2
  deriving Repr, DecidableEq

/-- Mirror of `struct Enemy { pos: Vec2 }`. -/
structure Enemy where
  pos : Vec2
  deriving Repr, DecidableEq

/-- Source function `get_hitbox` (main.rs lines 9-16): the inset collision rectangle
`Rect::new(pos.x + inset, pos.y + inset, size.x - inset*2, size.y - inset*2)`. -/
def get_hitbox (pos size : Vec2) (inset : ℚ) : Rect :=
  Rect.new (pos.x + inset) (pos.y + inset) (size.x - inset * 2) (size.y - inset * 2)

/-- The rectangle built for a bullet in `handle_collisions` (line 28):
`Rect::new(bullet.pos.x, bullet.pos.y, bullet_size.x, bullet_size.y)`. -/
def bulletRect (bullet_size : Vec2) (b : Bullet) : Rect :=
  Rect.new b.pos.x b.pos.y bullet_size.x bullet_size.y

/-- The relocation a hit enemy undergoes (line 34):
`enemy.pos.y = screen_height() + 100.0` marks it for deletion. -/
def markEnemyDead (sh : ℚ) (e : Enemy) : Enemy :=
  ⟨⟨e.pos.x, sh + 100⟩⟩

/-- Inner loop of `handle_collisions` (lines 30-39): scan the enemies in
list order; on the first one whose inset-8 hitbox overlaps the bullet
rectangle, set its `pos.y` to `screen_height() + 100` and break.
`some es2` means a hit happened and `es2` is the updated list;
`none` means the bullet overlapped no enemy. -/
def scanEnemies (sh : ℚ) (enemy_size : Vec2) (rect : Rect) :
    List Enemy → Option (List Enemy)
  | [] => none
  | e :: es =>
    if rect.overlaps (get_hitbox e.pos enemy_size 8) then
      some (markEnemyDead sh e :: es)
    else
      (scanEnemies sh enemy_size rect es).map (fun es2 => e :: es2)

/-- Source function `handle_collisions` (lines 19-43): `bullets.retain(...)` keeps a bullet
iff its scan over the (mutating) enemy list finds no overlap; each hit
relocates that enemy and bumps `enemies_killed`. Returns
(surviving bullets, updated enemies, enemies_killed). -/
def handle_collisions (sh : ℚ) (bullet_size enemy_size : Vec2) :
    List Bullet → List Enemy → List Bullet × List Enemy × Nat
  | [], enemies => ([], enemies, 0)
  | b :: bs, enemies =>
    match scanEnemies sh enemy_size (bulletRect bullet_size b) enemies with
    | some enemies2 =>
      let r := handle_collisions sh bullet_size enemy_size bs enemies2
      (r.1, r.2.1, r.2.2 + 1)
    | none =>
      let r := handle_collisions sh bullet_size enemy_size bs enemies
      (b :: r.1, r.2.1, r.2.2)

/-! Constants of `play_game` (lines 57-71). -/

def entity_size : Vec2 := ⟨64, 64⟩

def player_speed : ℚ := 700

def bullet_speed : ℚ := 800

def bullet_size : Vec2 := ⟨10, 20⟩

def enemy_speed : ℚ := 400

def enemy_size : Vec2 := entity_size

def spawn_interval : ℚ := 3/2

def shoot_cooldown : ℚ := 2/5

/-- Mutable state of one round of `play_game`, between two frame boundaries. -/
structure GameState where
  score : Nat
  player : Player
  bullets : List Bullet
  enemies : List Enemy
  spawn_timer : ℚ
  shoot_timer : ℚ
  deriving Repr, DecidableEq

/-- What the environment supplies during one frame: `get_frame_time()`,
the key states queried with `is_key_down`, and the value the random
primitive would return for `rand::gen_range(0.0, screen_width() - enemy_size.x)`
if a spawn happens this frame. -/
structure Frame where
  dt : ℚ
  left : Bool
  right : Bool
  fire : Bool
  spawnX : ℚ
  deriving Repr, DecidableEq

/-- Round-start state (lines 54-71): score 0, player centered horizontally and
anchored 10 px above the bottom, no bullets or enemies, spawn timer 0.5,
shoot timer 0. -/
def initState (sw sh : ℚ) : GameState where
  score := 0
  player :=
    { pos := ⟨sw * (1/2) - entity_size.x / 2, sh - entity_size.y - 10⟩
      size := entity_size }
  bullets := []
  enemies := []
  spawn_timer := 1/2
  shoot_timer := 0

/-- Lines 77-79: `if shoot_timer > 0.0 { shoot_timer -= dt; }`. -/
def tickShoot (t dt : ℚ) : ℚ :=
  if t > 0 then t - dt else t

/-- Lines 82-85: apply left/right movement at `player_speed * dt`, then clamp
to `0` from below and to `screen_width() - player.size.x` from above. -/
def movePlayerX (sw : ℚ) (f : Frame) (p : Player) : ℚ :=
  let x1 := if f.left then p.pos.x - player_speed * f.dt else p.pos.x
  let x2 := if f.right then x1 + player_speed * f.dt else x1
  let x3 := if x2 < 0 then 0 else x2
  if x3 > sw - p.size.x then sw - p.size.x else x3

/-- The player record after the movement-and-clamp step; only `pos.x` changes. -/
def movedPlayer (sw : ℚ) (f : Frame) (s : GameState) : Player where
  pos := ⟨movePlayerX sw f s.player, s.player.pos.y⟩
  size := s.player.size

/-- Lines 86-90: if Space is down and the cooldown has run out, reset the
cooldown and push a bullet centered on the player at the player's top edge.
Returns the bullet list and the new shoot timer. -/
def fireStep (f : Frame) (t1 : ℚ) (player : Player) (bullets : List Bullet) :
    List Bullet × ℚ :=
  if f.fire && decide (t1 ≤ 0) then
    (bullets ++
      [⟨⟨player.pos.x + player.size.x / 2 - bullet_size.x / 2, player.pos.y⟩⟩],
      shoot_cooldown)
  else
    (bullets, t1)

/-- Line 93: `bullet.pos.y -= bullet_speed * dt`. -/
def moveBullet (dt : ℚ) (b : Bullet) : Bullet :=
  ⟨⟨b.pos.x, b.pos.y - bullet_speed * dt⟩⟩

/-- Line 94: `enemy.pos.y += enemy_speed * dt`. -/
def moveEnemy (dt : ℚ) (e : Enemy) : Enemy :=
  ⟨⟨e.pos.x, e.pos.y + enemy_speed * dt⟩⟩

/-- Lines 97-101: decrement the spawn timer by `dt`; if it drops to `≤ 0`,
reset it to 1.5 and push one enemy at `(f.spawnX, -enemy_size.y)`.
Returns the new timer and the enemy list. -/
def spawnStep (f : Frame) (timer : ℚ) (enemies : List Enemy) :
    ℚ × List Enemy :=
  let t := timer - f.dt
  if t ≤ 0 then
    (spawn_interval, enemies ++ [⟨⟨f.spawnX, -enemy_size.y⟩⟩])
  else
    (t, enemies)

/-- Lines 86-90 applied to this frame's state: the result of `fireStep` on the
moved player, the ticked shoot timer and the current bullets. -/
def afterFire (sw : ℚ) (f : Frame) (s : GameState) : List Bullet × ℚ :=
  fireStep f (tickShoot s.shoot_timer f.dt) (movedPlayer sw f s) s.bullets

/-- The bullet list as `handle_collisions` sees it: any just-fired bullet
included, every bullet moved up by `bullet_speed * dt` (lines 86-93). -/
def collisionInputBullets (sw : ℚ) (f : Frame) (s : GameState) : List Bullet :=
  ((afterFire sw f s).1).map (moveBullet f.dt)

/-- The spawn timer and enemy list at collision time: every enemy moved down
by `enemy_speed * dt`, then the spawn step applied (lines 94-101). -/
def collisionInputEnemies (f : Frame) (s : GameState) : ℚ × List Enemy :=
  spawnStep f s.spawn_timer ((s.enemies).map (moveEnemy f.dt))

/-- The call of line 104: `handle_collisions` on this frame's moved bullets
and post-spawn enemies. -/
def collided (sw sh : ℚ) (f : Frame) (s : GameState) :
    List Bullet × List Enemy × Nat :=
  handle_collisions sh bullet_size enemy_size
    (collisionInputBullets sw f s) (collisionInputEnemies f s).2

/-- Lines 108-115: does any live enemy's inset-8 hitbox overlap the player's
inset-10 hitbox? -/
def playerHit (player : Player) (enemies : List Enemy) : Bool :=
  enemies.any fun e =>
    (get_hitbox player.pos player.size 10).overlaps (get_hitbox e.pos enemy_size 8)

/-- Line 118: `enemies.retain(|enemy| enemy.pos.y < screen_height())`. -/
def cullEnemies (sh : ℚ) (enemies : List Enemy) : List Enemy :=
  enemies.filter fun e => decide (e.pos.y < sh)

/-- Outcome of one pass of the round loop: either `play_game` returns the
score (game over), or the loop reaches `next_frame().await` with a new state. -/
inductive FrameResult where
  | over (score : Nat)
  | next (s : GameState)
  deriving Repr, DecidableEq

/-- One iteration of the `loop` of `play_game` (lines 74-133), in source
order: tick the shoot cooldown, move and clamp the player, maybe fire, move
bullets and enemies, maybe spawn, resolve collisions and add the kills to the
score, end the round if an enemy overlaps the player, otherwise cull enemies
below the screen and carry the state to the next frame. -/
def stepFrame (sw sh : ℚ) (f : Frame) (s : GameState) : FrameResult :=
  if playerHit (movedPlayer sw f s) (collided sw sh f s).2.1 then
    .over (s.score + (collided sw sh f s).2.2)
  else
    .next
      { score := s.score + (collided sw sh f s).2.2
        player := movedPlayer sw f s
        bullets := (collided sw sh f s).1
        enemies := cullEnemies sh (collided sw sh f s).2.1
        spawn_timer := (collisionInputEnemies f s).1
        shoot_timer := (afterFire sw f s).2 }

/-- Run a sequence of frames from a state; `some` is the state after all of
them if the round is still going, `none` if the round ended in between. -/
def runFrames (sw sh : ℚ) : List Frame → GameState → Option GameState
  | [], s => some s
  | f :: fs, s =>
    match stepFrame sw sh f s with
    | .next s2 => runFrames sw sh fs s2
    | .over _ => none

/-- Run a sequence of frames from a state; `some n` is the score `play_game`
returns if the round ends during these frames, `none` if it is still going
when they run out. -/
def runRound (sw sh : ℚ) : List Frame → GameState → Option Nat
  | [], _ => none
  | f :: fs, s =>
    match stepFrame sw sh f s with
    | .next s2 => runRound sw sh fs s2
    | .over n => some n

/-- Total number of enemies killed by bullets over a sequence of frames
(counting the final frame's kills when the round ends). -/
def totalKills (sw sh : ℚ) : List Frame → GameState → Nat
  | [], _ => 0
  | f :: fs, s =>
    (collided sw sh f s).2.2 +
      match stepFrame sw sh f s with
      | .next s2 => totalKills sw sh fs s2
      | .over _ => 0

/-- Does this frame emit a bullet? Exactly the condition of line 86:
Space is down and the cooldown timer (after the tick of lines 77-79) is ≤ 0. -/
def firesThisFrame (f : Frame) (s : GameState) : Bool :=
  f.fire && decide (tickShoot s.shoot_timer f.dt ≤ 0)

/-- Run frames from a state under the constraint that none of them emits a
bullet and the round does not end: `some` is the resulting state. -/
def quietRun (sw sh : ℚ) : GameState → List Frame → Option GameState
  | s, [] => some s
  | s, f :: fs =>
    if firesThisFrame f s then none
    else
      match stepFrame sw sh f s with
      | .next s2 => quietRun sw sh s2 fs
      | .over _ => none

/-- A bullet overlaps neither any enemy of `es` nor the relocated copy of any
enemy of `es` (the form a hit enemy takes for the rest of the pass). -/
def bulletMissesAll (sh : ℚ) (b : Bullet) (es : List Enemy) : Bool :=
  es.all fun e =>
    !(bulletRect bullet_size b).overlaps (get_hitbox e.pos enemy_size 8) &&
    !(bulletRect bullet_size b).overlaps
      (get_hitbox (markEnemyDead sh e).pos enemy_size 8)

/-- Follow one bullet through a sequence of frames, requiring at each frame
that its moved copy misses every enemy (and every relocated enemy) of the
collision-time enemy list, and that the round does not end. `some (b2, s2)` is
the bullet's final incarnation and the final state. -/
def trackBullet (sw sh : ℚ) : Bullet → List Frame → GameState → Option (Bullet × GameState)
  | b, [], s => some (b, s)
  | b, f :: fs, s =>
    let b2 := moveBullet f.dt b
    if bulletMissesAll sh b2 (collisionInputEnemies f s).2 then
      match stepFrame sw sh f s with
      | .next s2 => trackBullet sw sh b2 fs s2
      | .over _ => none
    else none

/-- Every element of `es` is an element of `es0`, possibly relocated by a hit
earlier in the same collision pass. -/
def derivedFrom (sh : ℚ) (es0 es : List Enemy) : Prop :=
  ∀ e ∈ es, e ∈ es0 ∨ ∃ e0 ∈ es0, e = markEnemyDead sh e0

/-! Concrete data used to witness the theorems below, on a 800 × 600 screen. -/

/-- An idle frame: no keys held, `dt = 1`, spawn draw 368. -/
def wIdle : Frame := ⟨1, false, false, false, 368⟩

/-- An idle frame with `dt = 3/2` and spawn draw 0. -/
def wIdle2 : Frame := ⟨3/2, false, false, false, 0⟩

/-- A frame with Space held and `dt = 0`. -/
def wFire : Frame := ⟨0, false, false, true, 0⟩

/-- A frame with Space held and `dt = 1`. -/
def wFire1 : Frame := ⟨1, false, false, true, 0⟩

/-- A frame with the left key held and `dt = 1`. -/
def wLeft : Frame := ⟨1, true, false, false, 0⟩

/-- The state `stepFrame 800 600 wFire (initState 800 600)` reaches: one
bullet just fired, cooldown reset. -/
def wFired : GameState :=
  { score := 0
    player := { pos := ⟨368, 526⟩, size := ⟨64, 64⟩ }
    bullets := [⟨⟨395, 526⟩⟩]
    enemies := []
    spawn_timer := 1/2
    shoot_timer := 2/5 }

/-- The state `stepFrame 800 600 wIdle wFired` reaches: the bullet has moved
up by 800, one enemy has spawned at `(368, -64)`. -/
def wFlown : GameState :=
  { score := 0
    player := { pos := ⟨368, 526⟩, size := ⟨64, 64⟩ }
    bullets := [⟨⟨395, -274⟩⟩]
    enemies := [⟨⟨368, -64⟩⟩]
    spawn_timer := 3/2
    shoot_timer := -3/5 }

/-- A bullet at the origin; its rectangle overlaps `wE`'s hitbox. -/
def wB : Bullet := ⟨⟨0, 0⟩⟩

/-- A bullet at `(100, 0)`, clear of `wE`'s hitbox. -/
def wB2 : Bullet := ⟨⟨100, 0⟩⟩

/-- An enemy at the origin. -/
def wE : Enemy := ⟨⟨0, 0⟩⟩

/-- A player standing 100 px off the left edge of the screen. -/
def wP : Player := ⟨⟨-100, 0⟩, ⟨64, 64⟩⟩

/-- The bullet of `wFired`. -/
def wBf : Bullet := ⟨⟨395, 526⟩⟩

/-- The bullet of `wFlown`. -/
def wBf2 : Bullet := ⟨⟨395, -274⟩⟩

/-! Helper lemmas. -/

theorem stepFrame_next_eq {sw sh : ℚ} {f : Frame} {s s2 : GameState}
    (h : stepFrame sw sh f s = .next s2) :
    playerHit (movedPlayer sw f s) (collided sw sh f s).2.1 = false ∧
    s2 = { score := s.score + (collided sw sh f s).2.2
           player := movedPlayer sw f s
           bullets := (collided sw sh f s).1
           enemies := cullEnemies sh (collided sw sh f s).2.1
           spawn_timer := (collisionInputEnemies f s).1
           shoot_timer := (afterFire sw f s).2 } := by
  unfold stepFrame at h
  split at h
  · exact absurd h (by simp)
  · next hcond =>
      refine ⟨by simpa using hcond, ?_⟩
      injection h with h2
      exact h2.symm

theorem stepFrame_over_iff {sw sh : ℚ} {f : Frame} {s : GameState} {n : ℕ} :
    stepFrame sw sh f s = .over n ↔
      playerHit (movedPlayer sw f s) (collided sw sh f s).2.1 = true ∧
      n = s.score + (collided sw sh f s).2.2 := by
  unfold stepFrame
  split
  · next hcond =>
      simp only [FrameResult.over.injEq]
      exact ⟨fun h => ⟨by simpa using hcond, h.symm⟩, fun h => h.2.symm⟩
  · next hcond =>
      simp only [reduceCtorEq, false_iff, not_and]
      intro hp
      exact absurd hp (by simpa using hcond)

/-! C8. -/

/-- C8: `get_hitbox position size inset` is the axis-aligned rectangle with
top-left `(position.x + inset, position.y + inset)` and dimensions
`(size.x - 2*inset, size.y - 2*inset)` — the original rectangle shrunk by
`inset` on all four sides — and its center coincides with the center of the
original rectangle. -/
theorem hitbox_shrunk_and_centered (pos size : Vec2) (inset : ℚ) :
    get_hitbox pos size inset =
      Rect.new (pos.x + inset) (pos.y + inset)
        (size.x - 2 * inset) (size.y - 2 * inset) ∧
    (get_hitbox pos size inset).x + (get_hitbox pos size inset).w / 2
      = pos.x + size.x / 2 ∧
    (get_hitbox pos size inset).y + (get_hitbox pos size inset).h / 2
      = pos.y + size.y / 2 := by
  refine ⟨?_, ?_, ?_⟩ <;> simp [get_hitbox, Rect.new, Rect.mk.injEq] <;> ring

/-! C3. -/

/-- C3: whatever keys are held and whatever `dt` is, the movement-and-clamp
step leaves the player's x in `[0, screen_width - player_width]` (for a
player no wider than the screen); under left input that would push x
negative, x clamps to exactly 0. -/
theorem player_x_stays_clamped (sw : ℚ) (f : Frame) (p : Player)
    (hfit : p.size.x ≤ sw) :
    0 ≤ movePlayerX sw f p ∧ movePlayerX sw f p ≤ sw - p.size.x ∧
    (f.left = true → f.right = false → p.pos.x - player_speed * f.dt < 0 →
      movePlayerX sw f p = 0) := by
  refine ⟨?_, ?_, ?_⟩
  · simp only [movePlayerX]
    split_ifs <;> linarith
  · simp only [movePlayerX]
    split_ifs <;> linarith
  · intro hl hr hneg
    simp only [movePlayerX, hl, hr, if_true, Bool.false_eq_true, if_false]
    rw [if_pos hneg, if_neg (by linarith)]

/-! C7. -/

/-- C7: on a frame with `dt > 0`, the position-update step moves every live
bullet's y down by exactly `bullet_speed * dt` (strictly decreasing it) and
every live enemy's y up by exactly `enemy_speed * dt` (strictly increasing
it), elementwise on the whole live lists. -/
theorem positions_monotone (dt : ℚ) (hdt : 0 < dt)
    (bs : List Bullet) (es : List Enemy)
    (i : ℕ) (hib : i < bs.length) (j : ℕ) (hje : j < es.length) :
    ((bs.map (moveBullet dt)).get ⟨i, by simpa using hib⟩).pos.y
        = (bs.get ⟨i, hib⟩).pos.y - bullet_speed * dt ∧
    ((bs.map (moveBullet dt)).get ⟨i, by simpa using hib⟩).pos.y
        < (bs.get ⟨i, hib⟩).pos.y ∧
    ((es.map (moveEnemy dt)).get ⟨j, by simpa using hje⟩).pos.y
        = (es.get ⟨j, hje⟩).pos.y + enemy_speed * dt ∧
    (es.get ⟨j, hje⟩).pos.y
        < ((es.map (moveEnemy dt)).get ⟨j, by simpa using hje⟩).pos.y := by
  have hb : 0 < bullet_speed * dt := by
    have : (0:ℚ) < bullet_speed := by norm_num [bullet_speed]
    positivity
  have he : 0 < enemy_speed * dt := by
    have : (0:ℚ) < enemy_speed := by norm_num [enemy_speed]
    positivity
  refine ⟨?_, ?_, ?_, ?_⟩ <;>
    simp [List.get_eq_getElem, List.getElem_map, moveBullet, moveEnemy] <;>
    linarith

/-! C5. -/

/-- C5: after the spawn timer is decremented by `dt`: if it dropped to ≤ 0 it
is reset to the fixed interval 1.5 and exactly one enemy is appended, with
top edge at `-enemy_height` (above the screen) and x equal to the random
draw, which lies in `[0, screen_width - enemy_width]` whenever the draw obeys
the random primitive's `[0, screen_width - enemy_width)` contract; if the
timer stayed positive, nothing is appended. -/
theorem spawn_timer_spec (sw : ℚ) (f : Frame) (timer : ℚ) (es : List Enemy)
    (h0 : 0 ≤ f.spawnX) (h1 : f.spawnX < sw - enemy_size.x) :
    (timer - f.dt ≤ 0 →
      spawnStep f timer es
        = (spawn_interval, es ++ [⟨⟨f.spawnX, -enemy_size.y⟩⟩]) ∧
      0 ≤ f.spawnX ∧ f.spawnX ≤ sw - enemy_size.x ∧ (-enemy_size.y : ℚ) < 0) ∧
    (0 < timer - f.dt → spawnStep f timer es = (timer - f.dt, es)) := by
  constructor
  · intro hle
    refine ⟨?_, h0, le_of_lt h1, by norm_num [enemy_size, entity_size]⟩
    simp only [spawnStep]
    rw [if_pos hle]
  · intro hpos
    simp only [spawnStep]
    rw [if_neg (by linarith)]

/-! C6. -/

/-- C6: after the off-screen-removal step, every remaining enemy has its top
edge strictly above the bottom of the screen; every enemy at or below it is
removed that same frame; the step changes nothing but the enemy list (in
particular the score already equals pre-cull score); and an enemy relocated by
a bullet hit (to `y = screen_height + 100`) is removed by this same step. -/
theorem offscreen_enemies_removed (sw sh : ℚ) (f : Frame) (s s2 : GameState)
    (hstep : stepFrame sw sh f s = .next s2) :
    (∀ e ∈ s2.enemies, e.pos.y < sh) ∧
    s2.enemies = cullEnemies sh (collided sw sh f s).2.1 ∧
    (∀ e ∈ (collided sw sh f s).2.1, sh ≤ e.pos.y → e ∉ s2.enemies) ∧
    s2.score = s.score + (collided sw sh f s).2.2 ∧
    (∀ e : Enemy, markEnemyDead sh e ∉ s2.enemies) := by
  obtain ⟨-, h2⟩ := stepFrame_next_eq hstep
  subst h2
  refine ⟨?_, rfl, ?_, rfl, ?_⟩
  · intro e he
    simp only [cullEnemies, List.mem_filter, decide_eq_true_eq] at he
    exact he.2
  · intro e _ hge hmem
    simp only [cullEnemies, List.mem_filter, decide_eq_true_eq] at hmem
    linarith [hmem.2]
  · intro e hmem
    simp only [cullEnemies, List.mem_filter, decide_eq_true_eq, markEnemyDead] at hmem
    linarith [hmem.2]

/-! C10. -/

theorem runFrames_player (sw sh : ℚ) :
    ∀ (frames : List Frame) (s s2 : GameState),
      runFrames sw sh frames s = some s2 →
      s2.player.pos.y = s.player.pos.y ∧ s2.player.size = s.player.size := by
  intro frames
  induction frames with
  | nil =>
      intro s s2 h
      simp only [runFrames, Option.some.injEq] at h
      subst h
      exact ⟨rfl, rfl⟩
  | cons f fs ih =>
      intro s s2 h
      simp only [runFrames] at h
      cases hstep : stepFrame sw sh f s with
      | over n =>
          simp only [hstep] at h
          exact Option.noConfusion h
      | next s1 =>
          simp only [hstep] at h
          obtain ⟨-, heq⟩ := stepFrame_next_eq hstep
          have hy : s1.player.pos.y = s.player.pos.y := by
            rw [heq]; rfl
          have hsz : s1.player.size = s.player.size := by
            rw [heq]; rfl
          obtain ⟨h1, h2⟩ := ih s1 s2 h
          exact ⟨h1.trans hy, h2.trans hsz⟩

/-- C10: a frame step never touches the player's vertical position or size
(only `pos.x` is mutated), so over a whole round they keep their round-start
values `screen_height - player_height - 10` and the fixed entity size. -/
theorem player_y_and_size_fixed (sw sh : ℚ) (f : Frame) (s s2 : GameState)
    (frames : List Frame) (s3 : GameState)
    (h1 : stepFrame sw sh f s = .next s2)
    (h2 : runFrames sw sh frames (initState sw sh) = some s3) :
    s2.player.pos.y = s.player.pos.y ∧ s2.player.size = s.player.size ∧
    s3.player.pos.y = sh - entity_size.y - 10 ∧ s3.player.size = entity_size := by
  obtain ⟨-, heq⟩ := stepFrame_next_eq h1
  obtain ⟨hy, hsz⟩ := runFrames_player sw sh frames _ _ h2
  refine ⟨by rw [heq]; rfl, by rw [heq]; rfl, ?_, ?_⟩
  · rw [hy, initState]
  · rw [hsz, initState]

/-! C2. -/

theorem runRound_score (sw sh : ℚ) :
    ∀ (frames : List Frame) (s : GameState) (m : ℕ),
      runRound sw sh frames s = some m →
      m = s.score + totalKills sw sh frames s := by
  intro frames
  induction frames with
  | nil =>
      intro s m h
      simp only [runRound] at h
      exact Option.noConfusion h
  | cons f fs ih =>
      intro s m h
      simp only [runRound] at h
      cases hstep : stepFrame sw sh f s with
      | over n =>
          simp only [hstep, Option.some.injEq] at h
          subst h
          have hover := (stepFrame_over_iff.mp hstep).2
          simp only [totalKills, hstep]
          omega
      | next s1 =>
          simp only [hstep] at h
          have hm := ih s1 m h
          obtain ⟨-, heq⟩ := stepFrame_next_eq hstep
          have hscore : s1.score = s.score + (collided sw sh f s).2.2 := by
            rw [heq]
          simp only [totalKills, hstep]
          omega

/-- C2: a frame of the round returns (ends the round) exactly when, after
collision resolution, some live enemy's inset-8 hitbox overlaps the player's
inset-10 hitbox, and the value returned is the score accumulated through that
frame; a round started from the round-start state that ends during a frame
sequence returns exactly the number of enemies killed by bullets since the
round began. -/
theorem round_ends_on_player_overlap (sw sh : ℚ) (f : Frame) (s : GameState)
    (n : ℕ) (frames : List Frame) (m : ℕ)
    (hrun : runRound sw sh frames (initState sw sh) = some m) :
    (stepFrame sw sh f s = .over n ↔
      (∃ e ∈ (collided sw sh f s).2.1,
        (get_hitbox (movedPlayer sw f s).pos (movedPlayer sw f s).size 10).overlaps
          (get_hitbox e.pos enemy_size 8) = true) ∧
      n = s.score + (collided sw sh f s).2.2) ∧
    m = totalKills sw sh frames (initState sw sh) := by
  constructor
  · have hany : playerHit (movedPlayer sw f s) (collided sw sh f s).2.1 = true ↔
        ∃ e ∈ (collided sw sh f s).2.1,
          (get_hitbox (movedPlayer sw f s).pos (movedPlayer sw f s).size 10).overlaps
            (get_hitbox e.pos enemy_size 8) = true := by
      simp [playerHit, List.any_eq_true]
    rw [stepFrame_over_iff, hany]
  · have h := runRound_score sw sh frames (initState sw sh) m hrun
    simpa [initState] using h

/-! C1. -/

theorem scanEnemies_hit (sh : ℚ) (sz : Vec2) (rect : Rect) :
    ∀ (es : List Enemy) (i : ℕ) (hi : i < es.length),
      rect.overlaps (get_hitbox (es.get ⟨i, hi⟩).pos sz 8) = true →
      (∀ j (hj : j < i),
        rect.overlaps (get_hitbox (es.get ⟨j, hj.trans hi⟩).pos sz 8) = false) →
      scanEnemies sh sz rect es
        = some (es.set i (markEnemyDead sh (es.get ⟨i, hi⟩))) := by
  intro es
  induction es with
  | nil => intro i hi; exact absurd hi (by simp)
  | cons e tl ih =>
      intro i hi hhit hfirst
      cases i with
      | zero =>
          simp only [List.get] at hhit
          simp only [scanEnemies, hhit, if_true, List.get, List.set]
      | succ n =>
          have h0 : rect.overlaps (get_hitbox e.pos sz 8) = false := by
            simpa using hfirst 0 (Nat.succ_pos n)
          have hn : n < tl.length := by simpa using hi
          have hhit2 : rect.overlaps (get_hitbox (tl.get ⟨n, hn⟩).pos sz 8) = true := by
            simpa using hhit
          have hfirst2 : ∀ j (hj : j < n),
              rect.overlaps (get_hitbox (tl.get ⟨j, hj.trans hn⟩).pos sz 8) = false := by
            intro j hj
            simpa using hfirst (j + 1) (Nat.succ_lt_succ hj)
          simp only [scanEnemies, h0, Bool.false_eq_true, if_false,
            ih n hn hhit2 hfirst2, Option.map_some', List.set, List.get]

theorem scanEnemies_none (sh : ℚ) (sz : Vec2) (rect : Rect) :
    ∀ es : List Enemy,
      (∀ e ∈ es, rect.overlaps (get_hitbox e.pos sz 8) = false) →
      scanEnemies sh sz rect es = none := by
  intro es
  induction es with
  | nil => intro; rfl
  | cons e tl ih =>
      intro hmiss
      have h0 : rect.overlaps (get_hitbox e.pos sz 8) = false :=
        hmiss e (List.mem_cons_self e tl)
      simp only [scanEnemies, h0, Bool.false_eq_true, if_false,
        ih fun x hx => hmiss x (List.mem_cons_of_mem e hx), Option.map_none']

/-- C1: in the collision pass, a bullet whose rectangle overlaps the inset
hitbox of the enemy at position `i` of the live list — the first such enemy —
consumes exactly that enemy (relocated below the screen, hence out of the
live set at this frame's cull), adds exactly one to the kill counter, and is
itself removed, touching no other enemy; a bullet overlapping no enemy
survives the pass unchanged; and an enemy already consumed this frame cannot
be matched again by any bullet that is not itself below the screen. -/
theorem collision_pass_first_match (sh : ℚ) (b b2 : Bullet) (bs : List Bullet)
    (es : List Enemy) (i : ℕ) (hi : i < es.length)
    (hhit : (bulletRect bullet_size b).overlaps
      (get_hitbox (es.get ⟨i, hi⟩).pos enemy_size 8) = true)
    (hfirst : ∀ j (hj : j < i), (bulletRect bullet_size b).overlaps
      (get_hitbox (es.get ⟨j, hj.trans hi⟩).pos enemy_size 8) = false)
    (hmiss : ∀ e ∈ es, (bulletRect bullet_size b2).overlaps
      (get_hitbox e.pos enemy_size 8) = false)
    (hup : b2.pos.y + bullet_size.y < sh + 100 + 8) :
    handle_collisions sh bullet_size enemy_size (b :: bs) es
      = ((handle_collisions sh bullet_size enemy_size bs
            (es.set i (markEnemyDead sh (es.get ⟨i, hi⟩)))).1,
         (handle_collisions sh bullet_size enemy_size bs
            (es.set i (markEnemyDead sh (es.get ⟨i, hi⟩)))).2.1,
         (handle_collisions sh bullet_size enemy_size bs
            (es.set i (markEnemyDead sh (es.get ⟨i, hi⟩)))).2.2 + 1) ∧
    handle_collisions sh bullet_size enemy_size (b2 :: bs) es
      = (b2 :: (handle_collisions sh bullet_size enemy_size bs es).1,
         (handle_collisions sh bullet_size enemy_size bs es).2.1,
         (handle_collisions sh bullet_size enemy_size bs es).2.2) ∧
    (∀ e : Enemy, (bulletRect bullet_size b2).overlaps
      (get_hitbox (markEnemyDead sh e).pos enemy_size 8) = false) ∧
    (∀ (l : List Enemy) (e : Enemy), markEnemyDead sh e ∉ cullEnemies sh l) := by
  refine ⟨?_, ?_, ?_, ?_⟩
  · simp only [handle_collisions,
      scanEnemies_hit sh enemy_size (bulletRect bullet_size b) es i hi hhit hfirst]
  · simp only [handle_collisions,
      scanEnemies_none sh enemy_size (bulletRect bullet_size b2) es hmiss]
  · intro e
    simp only [Rect.overlaps, bulletRect, get_hitbox, markEnemyDead, Rect.new,
      Rect.left, Rect.right, Rect.top, Rect.bottom]
    rw [decide_eq_false (not_le.mpr hup), Bool.and_false]
  · intro l e hmem
    simp only [cullEnemies, List.mem_filter, decide_eq_true_eq, markEnemyDead] at hmem
    linarith [hmem.2]

/-! C4. -/

theorem tickShoot_ge (t dt : ℚ) (h : 0 ≤ dt) : t - dt ≤ tickShoot t dt := by
  unfold tickShoot
  split_ifs <;> linarith

theorem tickShoot_le_dt (t dt : ℚ) (h : 0 ≤ dt) (hle : tickShoot t dt ≤ 0) :
    t ≤ dt := by
  unfold tickShoot at hle
  split_ifs at hle <;> linarith

theorem shoot_timer_next {sw sh : ℚ} {f : Frame} {s s2 : GameState}
    (h : stepFrame sw sh f s = .next s2) :
    s2.shoot_timer
      = if firesThisFrame f s then shoot_cooldown
        else tickShoot s.shoot_timer f.dt := by
  obtain ⟨-, heq⟩ := stepFrame_next_eq h
  rw [heq]
  show (afterFire sw f s).2 = _
  simp only [afterFire, fireStep, firesThisFrame]
  split_ifs <;> rfl

theorem quietRun_timer (sw sh : ℚ) :
    ∀ (fs : List Frame) (s s2 : GameState),
      (∀ g ∈ fs, 0 ≤ g.dt) → quietRun sw sh s fs = some s2 →
      s.shoot_timer - (fs.map Frame.dt).sum ≤ s2.shoot_timer := by
  intro fs
  induction fs with
  | nil =>
      intro s s2 _ h
      simp only [quietRun, Option.some.injEq] at h
      subst h
      simp
  | cons f fs ih =>
      intro s s2 hdt h
      simp only [quietRun] at h
      split at h
      · exact Option.noConfusion h
      · next hnf =>
          cases hstep : stepFrame sw sh f s with
          | over n =>
              simp only [hstep] at h
              exact Option.noConfusion h
          | next s1 =>
              simp only [hstep] at h
              have h1 := ih s1 s2 (fun g hg => hdt g (List.mem_cons_of_mem f hg)) h
              have ht : s1.shoot_timer = tickShoot s.shoot_timer f.dt := by
                rw [shoot_timer_next hstep, if_neg hnf]
              have h2 : s.shoot_timer - f.dt ≤ s1.shoot_timer := by
                rw [ht]
                exact tickShoot_ge _ _ (hdt f (List.mem_cons_self f fs))
              simp only [List.map_cons, List.sum_cons]
              linarith

/-- C4: between two consecutive bullet emissions — a frame that fires, a
stretch of frames none of which fires, then a frame that fires — the total
frame time elapsed is at least the fixed 0.4 s cooldown, because the timer is
reset to the cooldown on emission, decremented by `dt` only while positive,
and a bullet is emitted only once it is ≤ 0 (all `dt` assumed nonnegative). -/
theorem fire_rate_bounded (sw sh : ℚ) (f0 fm : Frame) (fs : List Frame)
    (s s0 sm : GameState)
    (hdts : ∀ g ∈ fs, 0 ≤ g.dt) (hdm : 0 ≤ fm.dt)
    (hfire0 : firesThisFrame f0 s = true)
    (hstep0 : stepFrame sw sh f0 s = .next s0)
    (hquiet : quietRun sw sh s0 fs = some sm)
    (hfirem : firesThisFrame fm sm = true) :
    s0.shoot_timer = shoot_cooldown ∧
    shoot_cooldown ≤ (fs.map Frame.dt).sum + fm.dt := by
  have h0 : s0.shoot_timer = shoot_cooldown := by
    rw [shoot_timer_next hstep0, if_pos hfire0]
  refine ⟨h0, ?_⟩
  have h1 := quietRun_timer sw sh fs s0 sm hdts hquiet
  have h2 : tickShoot sm.shoot_timer fm.dt ≤ 0 := by
    have hand : decide (tickShoot sm.shoot_timer fm.dt ≤ 0) = true := by
      have := hfirem
      unfold firesThisFrame at this
      exact (Bool.and_eq_true_iff.mp this).2
    simpa using hand
  have h3 : sm.shoot_timer ≤ fm.dt := tickShoot_le_dt _ _ hdm h2
  rw [h0] at h1
  linarith

/-! C9. -/

theorem fireStep_mem (f : Frame) (t1 : ℚ) (player : Player)
    (bullets : List Bullet) (b : Bullet) (hb : b ∈ bullets) :
    b ∈ (fireStep f t1 player bullets).1 := by
  unfold fireStep
  split_ifs
  · exact List.mem_append_left _ hb
  · exact hb

theorem derivedFrom_refl (sh : ℚ) (es : List Enemy) : derivedFrom sh es es :=
  fun _ he => Or.inl he

theorem derivedFrom_tail {sh : ℚ} {es0 : List Enemy} {e : Enemy} {tl : List Enemy}
    (h : derivedFrom sh es0 (e :: tl)) : derivedFrom sh es0 tl :=
  fun x hx => h x (List.mem_cons_of_mem e hx)

theorem scanEnemies_derived (sh : ℚ) (sz : Vec2) (rect : Rect) (es0 : List Enemy) :
    ∀ es es2 : List Enemy, scanEnemies sh sz rect es = some es2 →
      derivedFrom sh es0 es → derivedFrom sh es0 es2 := by
  intro es
  induction es with
  | nil =>
      intro es2 h
      exact absurd h (by simp [scanEnemies])
  | cons e tl ih =>
      intro es2 h hder
      simp only [scanEnemies] at h
      split at h
      · simp only [Option.some.injEq] at h
        subst h
        intro x hx
        rcases List.mem_cons.mp hx with rfl | hxtl
        · rcases hder e (List.mem_cons_self e tl) with he0 | ⟨e0, he0, heq⟩
          · exact Or.inr ⟨e, he0, rfl⟩
          · exact Or.inr ⟨e0, he0, by rw [heq]; rfl⟩
        · exact hder x (List.mem_cons_of_mem e hxtl)
      · rw [Option.map_eq_some'] at h
        obtain ⟨tl2, htl2, rfl⟩ := h
        intro x hx
        rcases List.mem_cons.mp hx with rfl | hxtl
        · exact hder x (List.mem_cons_self x tl)
        · exact ih tl2 htl2 (derivedFrom_tail hder) x hxtl

theorem misses_of_derived {sh : ℚ} {b : Bullet} {es0 es : List Enemy}
    (hmiss : bulletMissesAll sh b es0 = true) (hder : derivedFrom sh es0 es) :
    ∀ e ∈ es,
      (bulletRect bullet_size b).overlaps (get_hitbox e.pos enemy_size 8) = false := by
  intro e he
  have hall := List.all_eq_true.mp hmiss
  rcases hder e he with he0 | ⟨e0, he0, heq⟩
  · have := hall e he0
    have h1 := (Bool.and_eq_true_iff.mp this).1
    simpa using h1
  · have := hall e0 he0
    have h2 := (Bool.and_eq_true_iff.mp this).2
    rw [heq]
    simpa using h2

theorem bullet_survives_pass (sh : ℚ) (b : Bullet) (es0 : List Enemy)
    (hmiss : bulletMissesAll sh b es0 = true) :
    ∀ (bs : List Bullet) (es : List Enemy), b ∈ bs → derivedFrom sh es0 es →
      b ∈ (handle_collisions sh bullet_size enemy_size bs es).1 := by
  intro bs
  induction bs with
  | nil =>
      intro es hb
      exact absurd hb (by simp)
  | cons b0 tl ih =>
      intro es hb hder
      rcases List.mem_cons.mp hb with rfl | hbtl
      · simp only [handle_collisions,
          scanEnemies_none sh enemy_size (bulletRect bullet_size b) es
            (misses_of_derived hmiss hder)]
        exact List.mem_cons_self _ _
      · cases hscan : scanEnemies sh enemy_size (bulletRect bullet_size b0) es with
        | none =>
            simp only [handle_collisions, hscan]
            exact List.mem_cons_of_mem b0 (ih es hbtl hder)
        | some es2 =>
            simp only [handle_collisions, hscan]
            exact ih es2 hbtl
              (scanEnemies_derived sh enemy_size (bulletRect bullet_size b0) es0
                es es2 hscan hder)

/-- C9: a bullet is removed only by the collision pass: a bullet of the live
set that, frame after frame, overlaps no enemy (live or relocated) is still
in the live bullet list at the end of the frame sequence, with its x
unchanged and its y exactly `bullet_speed` times the total elapsed time
lower — it keeps moving up forever, even far above the screen. -/
theorem unhit_bullet_persists (sw sh : ℚ) (frames : List Frame)
    (b b2 : Bullet) (s s2 : GameState)
    (hb : b ∈ s.bullets)
    (htrack : trackBullet sw sh b frames s = some (b2, s2)) :
    b2 ∈ s2.bullets ∧ b2.pos.x = b.pos.x ∧
    b2.pos.y = b.pos.y - bullet_speed * (frames.map Frame.dt).sum := by
  induction frames generalizing b s with
  | nil =>
      simp only [trackBullet, Option.some.injEq, Prod.mk.injEq] at htrack
      obtain ⟨rfl, rfl⟩ := htrack
      refine ⟨hb, rfl, by simp⟩
  | cons f fs ih =>
      simp only [trackBullet] at htrack
      split at htrack
      · next hmiss =>
          cases hstep : stepFrame sw sh f s with
          | over n =>
              rw [hstep] at htrack
              exact Option.noConfusion htrack
          | next s1 =>
              rw [hstep] at htrack
              have hmem : moveBullet f.dt b ∈ s1.bullets := by
                obtain ⟨-, heq⟩ := stepFrame_next_eq hstep
                rw [heq]
                show moveBullet f.dt b ∈ (collided sw sh f s).1
                refine bullet_survives_pass sh (moveBullet f.dt b)
                  (collisionInputEnemies f s).2 hmiss
                  (collisionInputBullets sw f s) (collisionInputEnemies f s).2
                  ?_ (derivedFrom_refl sh _)
                exact List.mem_map_of_mem (moveBullet f.dt)
                  (fireStep_mem f _ _ s.bullets b hb)
              obtain ⟨h1, h2, h3⟩ := ih (moveBullet f.dt b) s1 hmem htrack
              refine ⟨h1, ?_, ?_⟩
              · rw [h2]; rfl
              · rw [h3]
                simp only [moveBullet, List.map_cons, List.sum_cons]
                ring
      · exact Option.noConfusion htrack

/-! Concrete witnesses. -/

theorem player_x_stays_clamped_witness :
    0 ≤ movePlayerX 800 wLeft wP ∧ movePlayerX 800 wLeft wP ≤ 800 - wP.size.x ∧
    (wLeft.left = true → wLeft.right = false →
      wP.pos.x - player_speed * wLeft.dt < 0 → movePlayerX 800 wLeft wP = 0) :=
  player_x_stays_clamped 800 wLeft wP (by norm_num [wP])

theorem positions_monotone_witness :
    (([wB].map (moveBullet 1)).get ⟨0, by simp⟩).pos.y
        = ([wB].get ⟨0, by simp⟩).pos.y - bullet_speed * 1 ∧
    (([wB].map (moveBullet 1)).get ⟨0, by simp⟩).pos.y
        < ([wB].get ⟨0, by simp⟩).pos.y ∧
    (([wE].map (moveEnemy 1)).get ⟨0, by simp⟩).pos.y
        = ([wE].get ⟨0, by simp⟩).pos.y + enemy_speed * 1 ∧
    ([wE].get ⟨0, by simp⟩).pos.y
        < (([wE].map (moveEnemy 1)).get ⟨0, by simp⟩).pos.y :=
  positions_monotone 1 (by norm_num) [wB] [wE] 0 (by simp) 0 (by simp)

theorem spawn_timer_spec_witness :
    ((1/2 : ℚ) - wIdle.dt ≤ 0 →
      spawnStep wIdle (1/2) []
        = (spawn_interval, [] ++ [⟨⟨wIdle.spawnX, -enemy_size.y⟩⟩]) ∧
      0 ≤ wIdle.spawnX ∧ wIdle.spawnX ≤ 800 - enemy_size.x ∧
      (-enemy_size.y : ℚ) < 0) ∧
    (0 < (1/2 : ℚ) - wIdle.dt → spawnStep wIdle (1/2) [] = ((1/2 : ℚ) - wIdle.dt, [])) :=
  spawn_timer_spec 800 wIdle (1/2) [] (by norm_num [wIdle])
    (by norm_num [wIdle, enemy_size, entity_size])

theorem offscreen_enemies_removed_witness :
    (∀ e ∈ wFlown.enemies, e.pos.y < 600) ∧
    wFlown.enemies = cullEnemies 600 (collided 800 600 wIdle wFired).2.1 ∧
    (∀ e ∈ (collided 800 600 wIdle wFired).2.1, 600 ≤ e.pos.y → e ∉ wFlown.enemies) ∧
    wFlown.score = wFired.score + (collided 800 600 wIdle wFired).2.2 ∧
    (∀ e : Enemy, markEnemyDead 600 e ∉ wFlown.enemies) :=
  offscreen_enemies_removed 800 600 wIdle wFired wFlown
    (by norm_num [stepFrame, collided, collisionInputBullets, collisionInputEnemies,
      afterFire, fireStep, tickShoot, movedPlayer, movePlayerX, spawnStep,
      handle_collisions, scanEnemies, playerHit, cullEnemies, entity_size, enemy_size,
      bullet_size, player_speed, bullet_speed, enemy_speed, spawn_interval,
      shoot_cooldown, moveBullet, moveEnemy, get_hitbox, Rect.overlaps, Rect.new,
      Rect.left, Rect.right, Rect.top, Rect.bottom, bulletRect, markEnemyDead,
      wIdle, wFired, wFlown])

theorem player_y_and_size_fixed_witness :
    wFlown.player.pos.y = wFired.player.pos.y ∧
    wFlown.player.size = wFired.player.size ∧
    (initState 800 600).player.pos.y = 600 - entity_size.y - 10 ∧
    (initState 800 600).player.size = entity_size :=
  player_y_and_size_fixed 800 600 wIdle wFired wFlown [] (initState 800 600)
    (by norm_num [stepFrame, collided, collisionInputBullets, collisionInputEnemies,
      afterFire, fireStep, tickShoot, movedPlayer, movePlayerX, spawnStep,
      handle_collisions, scanEnemies, playerHit, cullEnemies, entity_size, enemy_size,
      bullet_size, player_speed, bullet_speed, enemy_speed, spawn_interval,
      shoot_cooldown, moveBullet, moveEnemy, get_hitbox, Rect.overlaps, Rect.new,
      Rect.left, Rect.right, Rect.top, Rect.bottom, bulletRect, markEnemyDead,
      wIdle, wFired, wFlown])
    rfl

theorem round_ends_on_player_overlap_witness :
    (stepFrame 800 600 wIdle (initState 800 600) = .over 0 ↔
      (∃ e ∈ (collided 800 600 wIdle (initState 800 600)).2.1,
        (get_hitbox (movedPlayer 800 wIdle (initState 800 600)).pos
            (movedPlayer 800 wIdle (initState 800 600)).size 10).overlaps
          (get_hitbox e.pos enemy_size 8) = true) ∧
      0 = (initState 800 600).score
            + (collided 800 600 wIdle (initState 800 600)).2.2) ∧
    0 = totalKills 800 600 [wIdle, wIdle2] (initState 800 600) :=
  round_ends_on_player_overlap 800 600 wIdle (initState 800 600) 0 [wIdle, wIdle2] 0
    (by norm_num [runRound, stepFrame, collided, collisionInputBullets,
      collisionInputEnemies, afterFire, fireStep, tickShoot, movedPlayer, movePlayerX,
      spawnStep, handle_collisions, scanEnemies, playerHit, cullEnemies, initState,
      entity_size, enemy_size, bullet_size, player_speed, bullet_speed, enemy_speed,
      spawn_interval, shoot_cooldown, moveBullet, moveEnemy, get_hitbox, Rect.overlaps,
      Rect.new, Rect.left, Rect.right, Rect.top, Rect.bottom, bulletRect, markEnemyDead,
      wIdle, wIdle2])

theorem fire_rate_bounded_witness :
    wFired.shoot_timer = shoot_cooldown ∧
    shoot_cooldown ≤ (([] : List Frame).map Frame.dt).sum + wFire1.dt :=
  fire_rate_bounded 800 600 wFire wFire1 [] (initState 800 600) wFired wFired
    (by simp) (by norm_num [wFire1])
    (by norm_num [firesThisFrame, tickShoot, initState, wFire])
    (by norm_num [stepFrame, collided, collisionInputBullets, collisionInputEnemies,
      afterFire, fireStep, tickShoot, movedPlayer, movePlayerX, spawnStep,
      handle_collisions, scanEnemies, playerHit, cullEnemies, initState, entity_size,
      enemy_size, bullet_size, player_speed, bullet_speed, enemy_speed, spawn_interval,
      shoot_cooldown, moveBullet, moveEnemy, get_hitbox, Rect.overlaps, Rect.new,
      Rect.left, Rect.right, Rect.top, Rect.bottom, bulletRect, markEnemyDead,
      wFire, wFired])
    rfl
    (by norm_num [firesThisFrame, tickShoot, wFire1, wFired, shoot_cooldown])

theorem collision_pass_first_match_witness :
    handle_collisions 600 bullet_size enemy_size [wB] [wE]
      = ((handle_collisions 600 bullet_size enemy_size []
            ([wE].set 0 (markEnemyDead 600 ([wE].get ⟨0, by simp⟩)))).1,
         (handle_collisions 600 bullet_size enemy_size []
            ([wE].set 0 (markEnemyDead 600 ([wE].get ⟨0, by simp⟩)))).2.1,
         (handle_collisions 600 bullet_size enemy_size []
            ([wE].set 0 (markEnemyDead 600 ([wE].get ⟨0, by simp⟩)))).2.2 + 1) ∧
    handle_collisions 600 bullet_size enemy_size [wB2] [wE]
      = (wB2 :: (handle_collisions 600 bullet_size enemy_size [] [wE]).1,
         (handle_collisions 600 bullet_size enemy_size [] [wE]).2.1,
         (handle_collisions 600 bullet_size enemy_size [] [wE]).2.2) ∧
    (∀ e : Enemy, (bulletRect bullet_size wB2).overlaps
      (get_hitbox (markEnemyDead 600 e).pos enemy_size 8) = false) ∧
    (∀ (l : List Enemy) (e : Enemy), markEnemyDead 600 e ∉ cullEnemies 600 l) :=
  collision_pass_first_match 600 wB wB2 [] [wE] 0 (by simp)
    (by norm_num [bulletRect, get_hitbox, Rect.overlaps, Rect.new, Rect.left,
      Rect.right, Rect.top, Rect.bottom, wB, wE, bullet_size, enemy_size, entity_size])
    (fun j hj => absurd hj (Nat.not_lt_zero j))
    (by
      intro e he
      rw [List.mem_singleton] at he
      subst he
      norm_num [bulletRect, get_hitbox, Rect.overlaps, Rect.new, Rect.left,
        Rect.right, Rect.top, Rect.bottom, wB2, wE, bullet_size, enemy_size,
        entity_size])
    (by norm_num [wB2, bullet_size])

theorem unhit_bullet_persists_witness :
    wBf2 ∈ wFlown.bullets ∧ wBf2.pos.x = wBf.pos.x ∧
    wBf2.pos.y = wBf.pos.y - bullet_speed * ([wIdle].map Frame.dt).sum :=
  unhit_bullet_persists 800 600 [wIdle] wBf wBf2 wFired wFlown
    (by simp [wFired, wBf])
    (by norm_num [trackBullet, bulletMissesAll, stepFrame, collided,
      collisionInputBullets, collisionInputEnemies, afterFire, fireStep, tickShoot,
      movedPlayer, movePlayerX, spawnStep, handle_collisions, scanEnemies, playerHit,
      cullEnemies, entity_size, enemy_size, bullet_size, player_speed, bullet_speed,
      enemy_speed, spawn_interval, shoot_cooldown, moveBullet, moveEnemy, get_hitbox,
      Rect.overlaps, Rect.new, Rect.left, Rect.right, Rect.top, Rect.bottom,
      bulletRect, markEnemyDead, wIdle, wFired, wFlown, wBf, wBf2])

end SpaceShoot
